import Mathlib

/-
  Verification development for the Sovereign-Tokens script layer.

  The Rust sources embedded here (shallowly) are:
    src/script/field_script.rs      -- fused Poseidon constants, script builder, S-box
    src/script/verifier_contract.rs -- IPA accumulator, step witness, transitions
    src/script/proof_generator.rs   -- transcript builder, proof generator, serializer
    src/script/mod.rs               -- push_bytes encoder
    src/script/witness.rs           -- push_data encoder

  Machine integers are modelled as Nat with explicit reductions; byte strings
  are lists of naturals (each entry one byte); fallible operations return
  Option.  Parts of the repository that the script layer imports but that are
  not present under src/ (the crypto module with the field type Fp, the
  Poseidon hash functions and the Poseidon constants table, and the opcodes
  module) are modelled from the specification; each such definition carries a
  doc comment starting with: Modelled from the spec.
-/

-- ============================================================================
-- Byte-level codec helpers
-- ============================================================================

/-- Little-endian byte encoding of a natural number into exactly `k` bytes
(the layout used by `u16::to_le_bytes` / `u32::to_le_bytes` and by the 32-byte
field-element representation). -/
def toBytesLE : ℕ → ℕ → List ℕ
  | 0, _ => []
  | k + 1, v => v % 256 :: toBytesLE k (v / 256)

/-- Little-endian byte decoding. -/
def fromBytesLE : List ℕ → ℕ
  | [] => 0
  | b :: bs => b + 256 * fromBytesLE bs

/-- A 32-byte little-endian encoding of a value (a `[u8; 32]`). -/
def toBytes32 (v : ℕ) : List ℕ := toBytesLE 32 v

-- ============================================================================
-- Field modulus and canonical field codec
-- src/script/field_script.rs lines 35-43, 191-199
-- ============================================================================

/-- Number of bytes of a serialized field element (`FIELD_BYTES`). -/
def FIELD_BYTES : ℕ := 32

/-- The Pallas prime modulus, as the 32-byte little-endian constant
`PALLAS_MODULUS_BYTES` from field_script.rs. -/
def PALLAS_MODULUS_BYTES : List ℕ :=
  [0x01, 0x00, 0x00, 0x00, 0xed, 0x30, 0x2d, 0x99,
   0x1b, 0xf9, 0x4c, 0x09, 0xfc, 0x98, 0x46, 0x22,
   0x00, 0x00, 0x00, 0x00, 0x00, 0x00, 0x00, 0x00,
   0x00, 0x00, 0x00, 0x00, 0x00, 0x00, 0x00, 0x40]

/-- The Pallas prime `p`, the value encoded by `PALLAS_MODULUS_BYTES`. -/
def pallasP : ℕ := fromBytesLE PALLAS_MODULUS_BYTES

/-- A serialized 32-byte field element, represented by its little-endian
value (a natural number below 2^256).  This is the `FieldElement` type alias
of verifier_contract.rs. -/
abbrev FieldElement : Type := ℕ

/-- Modelled from the spec: the field type `Fp` of the crypto module (absent
from src/) is an integer modulo the fixed 256-bit prime `p`; we represent a
field element by its canonical natural number below `pallasP`. -/
abbrev Fp : Type := ℕ

/-- Encoding a field element into its 32-byte representation (`fp_to_bytes`,
field_script.rs line 192).  On canonical values the representation is the
value itself in our model, so the codec is the identity on `[0, p)`. -/
def fp_to_bytes (x : Fp) : FieldElement := x

/-- Modelled from the spec: `bytes_to_fp` (field_script.rs line 197) calls
`Fp::from_repr`, which lives in the crypto module absent from src/; per the
spec (section 4.1) decoding fails, returning none, for any 32-byte value
greater than or equal to `p`. -/
def bytes_to_fp (b : FieldElement) : Option Fp :=
  if b < pallasP then some b else none

/-- Decode a field element, defaulting to zero on failure — the ubiquitous
`bytes_to_fp(x).unwrap_or(Fp::ZERO)` pattern of verifier_contract.rs and
proof_generator.rs. -/
def fpOrZero (b : FieldElement) : ℕ := (bytes_to_fp b).getD 0

-- ============================================================================
-- Push encoders
-- src/script/mod.rs lines 191-212 (push_bytes)
-- src/script/witness.rs lines 140-164 (push_data)
-- ============================================================================

/-- Modelled from the spec: the opcodes module is absent from src/; the
stored-program byte format uses the standard single-byte length prefix for
pushes of at most 75 bytes and the explicit one/two/four-byte length
opcode-prefix scheme otherwise, with the empty push encoded as the zero
opcode.  These are the standard VM opcode values, matching the literal bytes
0x00/0x4c/0x4d/0x4e used by witness.rs. -/
def OP_0 : ℕ := 0x00

/-- Modelled from the spec: one-byte-length push prefix opcode. -/
def OP_PUSHDATA1 : ℕ := 0x4c

/-- Modelled from the spec: two-byte-length push prefix opcode. -/
def OP_PUSHDATA2 : ℕ := 0x4d

/-- Modelled from the spec: four-byte-length push prefix opcode. -/
def OP_PUSHDATA4 : ℕ := 0x4e

/-- The push encoder of src/script/mod.rs (lines 191-212). -/
def push_bytes (data : List ℕ) : List ℕ :=
  if data.length = 0 then [OP_0]
  else if data.length ≤ 75 then data.length :: data
  else if data.length ≤ 255 then OP_PUSHDATA1 :: data.length :: data
  else if data.length ≤ 65535 then OP_PUSHDATA2 :: (toBytesLE 2 data.length ++ data)
  else OP_PUSHDATA4 :: (toBytesLE 4 data.length ++ data)

/-- The push encoder of src/script/witness.rs (lines 140-164).  Unlike
`push_bytes` it encodes a single byte with value 1..16 as the corresponding
small-integer opcode `0x50 + v`. -/
def push_data (data : List ℕ) : List ℕ :=
  if data.length = 0 then [0x00]
  else if data.length = 1 ∧ 1 ≤ data.headD 0 ∧ data.headD 0 ≤ 16 then
    [0x50 + data.headD 0]
  else if data.length ≤ 75 then data.length :: data
  else if data.length ≤ 255 then 0x4c :: data.length :: data
  else if data.length ≤ 65535 then 0x4d :: (toBytesLE 2 data.length ++ data)
  else 0x4e :: (toBytesLE 4 data.length ++ data)

/-- Does `push_data` take its small-integer special branch on this input? -/
def isSmallIntPush (data : List ℕ) : Bool :=
  decide (data.length = 1 ∧ 1 ≤ data.headD 0 ∧ data.headD 0 ≤ 16)

-- ============================================================================
-- Poseidon round schedule and constant fusion
-- src/script/field_script.rs lines 45-47 (schedule), 80-137 (compute),
-- 140-179 (witness bytes / hash), 205-238 (sparse MDS)
-- ============================================================================

/-- Number of full rounds of the fixed schedule. -/
def FULL_ROUNDS : ℕ := 8

/-- Number of partial rounds of the fixed schedule. -/
def PARTIAL_ROUNDS : ℕ := 56

/-- Total number of rounds of the fixed schedule. -/
def TOTAL_ROUNDS : ℕ := 64

/-- The three working registers (s0, s1, s2) of one permutation invocation. -/
structure PermState where
  s0 : ℕ
  s1 : ℕ
  s2 : ℕ
deriving DecidableEq

/-- The fifth-power S-box over the Pallas field. -/
def sboxFp (x : ℕ) : ℕ := x ^ 5 % pallasP

/-- Add the textbook constant triple of round `r` to the state
(`get_round_constant(r, 0..2)`), componentwise mod `p`. -/
def addRC (rc : ℕ → ℕ → ℕ) (r : ℕ) (s : PermState) : PermState :=
  ⟨(s.s0 + rc r 0) % pallasP, (s.s1 + rc r 1) % pallasP, (s.s2 + rc r 2) % pallasP⟩

/-- Dense 3x3 matrix-vector product mod `p` (nine multiplications). -/
def denseMDS (m : ℕ → ℕ → ℕ) (s : PermState) : PermState :=
  ⟨(m 0 0 * s.s0 + m 0 1 * s.s1 + m 0 2 * s.s2) % pallasP,
   (m 1 0 * s.s0 + m 1 1 * s.s1 + m 1 2 * s.s2) % pallasP,
   (m 2 0 * s.s0 + m 2 1 * s.s1 + m 2 2 * s.s2) % pallasP⟩

/-- The sparse mixing of partial rounds (field_script.rs lines 595-598 and
generate_sparse_mds): full first row, then `o1 = M[1][0]*s0 + s1` and
`o2 = M[2][0]*s0 + s2` — five multiplications. -/
def sparseMDS (m : ℕ → ℕ → ℕ) (s : PermState) : PermState :=
  ⟨(m 0 0 * s.s0 + m 0 1 * s.s1 + m 0 2 * s.s2) % pallasP,
   (m 1 0 * s.s0 + s.s1) % pallasP,
   (m 2 0 * s.s0 + s.s2) % pallasP⟩

/-- Modelled from the spec: textbook full round — add all three round
constants, apply the S-box to all three registers, then mix densely
(spec section 4.5; the unfused reference of section 8, fusion equivalence). -/
def textbookFullRound (m rc : ℕ → ℕ → ℕ) (r : ℕ) (s : PermState) : PermState :=
  let t := addRC rc r s
  denseMDS m ⟨sboxFp t.s0, sboxFp t.s1, sboxFp t.s2⟩

/-- Modelled from the spec: textbook partial round — add all three round
constants, apply the S-box to s0 only, then mix densely (the unfused
reference schedule of spec section 8, fusion equivalence). -/
def textbookPartialRound (m rc : ℕ → ℕ → ℕ) (r : ℕ) (s : PermState) : PermState :=
  let t := addRC rc r s
  denseMDS m ⟨sboxFp t.s0, t.s1, t.s2⟩

/-- Modelled from the spec: the textbook 64-round schedule — rounds 0-3 and
60-63 full, rounds 4-59 partial, with the unfused per-round constant triples
and dense mixing throughout. -/
def textbookPermutation (m rc : ℕ → ℕ → ℕ) (s : PermState) : PermState :=
  (List.range TOTAL_ROUNDS).foldl (fun st r =>
    if r < 4 ∨ 60 ≤ r then textbookFullRound m rc r st
    else textbookPartialRound m rc r st) s

/-- Fused constants for optimized Poseidon (field_script.rs lines 66-78).
The MDS matrix and round-constant table live in the crypto module absent
from src/, so they enter as function parameters `m` and `rc` below. -/
structure FusedPoseidonConstants where
  mds : ℕ → ℕ → ℕ
  full_round_constants : List (ℕ × ℕ × ℕ)
  partial_round_c0 : List ℕ

/-- The partial-round fusion loop of `FusedPoseidonConstants::compute`
(field_script.rs lines 104-127): for each partial round publish
`c0 + M[0][1]*acc1 + M[0][2]*acc2`, then overwrite the accumulators with
`acc1 = M[1][1]*c1 + M[1][2]*c2` and `acc2 = M[2][1]*c1 + M[2][2]*c2`. -/
def fuseLoop (m rc : ℕ → ℕ → ℕ) : ℕ → ℕ → ℕ → ℕ → List ℕ
  | 0, _, _, _ => []
  | n + 1, r, acc1, acc2 =>
      let c0 := rc r 0
      let c1 := rc r 1
      let c2 := rc r 2
      let eff := (c0 + m 0 1 * acc1 + m 0 2 * acc2) % pallasP
      eff :: fuseLoop m rc n (r + 1)
        ((m 1 1 * c1 + m 1 2 * c2) % pallasP)
        ((m 2 1 * c1 + m 2 2 * c2) % pallasP)

/-- `FusedPoseidonConstants::compute` (field_script.rs lines 82-137): stores
the unmodified constant triples of rounds 0-3 and 60-63 and the fused single
constants of rounds 4-59 (accumulators initialized to zero at round 4). -/
def FusedPoseidonConstants.compute (m rc : ℕ → ℕ → ℕ) : FusedPoseidonConstants :=
  { mds := m
    full_round_constants :=
      (List.range 4).map (fun r => (rc r 0, rc r 1, rc r 2)) ++
      (List.range 4).map (fun i => (rc (60 + i) 0, rc (60 + i) 1, rc (60 + i) 2))
    partial_round_c0 := fuseLoop m rc 56 4 0 0 }

/-- Full round of the fused schedule: the stored constant triple, S-box on
all three registers, dense mixing (field_script.rs generate_witness_full_round). -/
def fusedFullRound (m : ℕ → ℕ → ℕ) (t : ℕ × ℕ × ℕ) (s : PermState) : PermState :=
  let u : PermState :=
    ⟨(s.s0 + t.1) % pallasP, (s.s1 + t.2.1) % pallasP, (s.s2 + t.2.2) % pallasP⟩
  denseMDS m ⟨sboxFp u.s0, sboxFp u.s1, sboxFp u.s2⟩

/-- Partial round of the fused schedule: add only the fused `c0` to s0,
S-box s0, sparse mixing (field_script.rs generate_witness_partial_round). -/
def fusedPartialRound (m : ℕ → ℕ → ℕ) (c0 : ℕ) (s : PermState) : PermState :=
  sparseMDS m ⟨sboxFp ((s.s0 + c0) % pallasP), s.s1, s.s2⟩

/-- The 64-round schedule run against a fused constant set: rounds 0-3 use
the first four stored triples, rounds 4-59 the fused single constants with
sparse mixing, rounds 60-63 the last four stored triples. -/
def fusedPermutation (c : FusedPoseidonConstants) (s : PermState) : PermState :=
  (List.range TOTAL_ROUNDS).foldl (fun st r =>
    if r < 4 then fusedFullRound c.mds (c.full_round_constants.getD r (0, 0, 0)) st
    else if r < 60 then fusedPartialRound c.mds (c.partial_round_c0.getD (r - 4) 0) st
    else fusedFullRound c.mds (c.full_round_constants.getD (4 + (r - 60)) (0, 0, 0)) st) s

/-- A concrete mixing matrix for evaluating the schedules.  Its rows 1 and 2
have unit diagonal and zero off-diagonal entries, exactly the shape the
spec's sparse-mixing optimization (section 4.3) requires, so the sparse and
dense mixing routines agree on it and any divergence between the two
schedules is attributable to the constant fusion alone. -/
def mdsDemo : ℕ → ℕ → ℕ := fun i j =>
  if i = 0 then (if j = 0 then 2 else 1)
  else if j = 0 then 1
  else if i = j then 1 else 0

/-- A concrete round-constant assignment: every round has `c1 = 1` and
`c0 = c2 = 0`, so the partial rounds carry nonzero s1-constants that the
fusion must absorb. -/
def rcDemo : ℕ → ℕ → ℕ := fun _ i => if i = 1 then 1 else 0

/-- The all-zero initial permutation state. -/
def permState0 : PermState := ⟨0, 0, 0⟩

-- ============================================================================
-- Fused constants blob and hash
-- src/script/field_script.rs lines 140-179
-- ============================================================================

/-- `FusedPoseidonConstants::to_witness_bytes` (field_script.rs lines
140-163): MDS matrix row-major, then full-round constant triples round-major,
then fused partial constants, each element as its 32-byte representation.
Note the modulus is not written. -/
def FusedPoseidonConstants.to_witness_bytes (c : FusedPoseidonConstants) : List ℕ :=
  ((List.range 3).flatMap fun i => (List.range 3).flatMap fun j => toBytes32 (c.mds i j)) ++
  (c.full_round_constants.flatMap fun t =>
    toBytes32 t.1 ++ toBytes32 t.2.1 ++ toBytes32 t.2.2) ++
  c.partial_round_c0.flatMap toBytes32

/-- `FusedPoseidonConstants::witness_hash` (field_script.rs lines 166-171):
the SHA-256 digest of the witness byte blob.  SHA-256 comes from the external
sha2 crate, so it enters as the function parameter `sha`. -/
def FusedPoseidonConstants.witness_hash (sha : List ℕ → List ℕ)
    (c : FusedPoseidonConstants) : List ℕ :=
  sha c.to_witness_bytes

/-- The field elements of the fused constants blob, in documented order:
nine matrix entries row-major, full-round constants round-major, fused
partial constants (the spec's layout of section 6 minus the leading
modulus). -/
def fusedBlobElements (c : FusedPoseidonConstants) : List ℕ :=
  [c.mds 0 0, c.mds 0 1, c.mds 0 2,
   c.mds 1 0, c.mds 1 1, c.mds 1 2,
   c.mds 2 0, c.mds 2 1, c.mds 2 2] ++
  (c.full_round_constants.flatMap fun t => [t.1, t.2.1, t.2.2]) ++
  c.partial_round_c0

/-- The blob layout as the spec's section 6 describes it, minus the modulus:
each element of `fusedBlobElements` serialized to 32 bytes in order. -/
def specFusedBlob (c : FusedPoseidonConstants) : List ℕ :=
  (fusedBlobElements c).flatMap toBytes32

-- ============================================================================
-- Transcript hashing and the IPA step witness
-- src/script/verifier_contract.rs lines 119-211
-- src/script/proof_generator.rs lines 35-107 (TranscriptBuilder)
-- ============================================================================

/-- Modelled from the spec: `PoseidonHash::hash_many` lives in the crypto
module absent from src/.  Per spec section 4.7 the transcript digest is the
sequential absorption of the element list with the two-input hash
`Permutation2(running, element)` (the parameter `h`), seeded with the first
element; we model the hash of an empty list as zero (never used: the list
always starts with the previous transcript). -/
def hashMany (h : ℕ → ℕ → ℕ) : List ℕ → ℕ
  | [] => 0
  | x :: xs => xs.foldl h x

/-- The proof data for one IPA transition (verifier_contract.rs lines
119-145).  Cross-term points are pairs of 32-byte coordinates. -/
structure IPAStepWitness where
  public_inputs : List FieldElement
  l_terms : List (FieldElement × FieldElement)
  r_terms : List (FieldElement × FieldElement)
  a_scalar : FieldElement
  b_scalar : Option FieldElement
  new_app_state : Option FieldElement
  next_transcript_hash : FieldElement
deriving DecidableEq

/-- `IPAStepWitness::new_minimal` (verifier_contract.rs lines 149-159). -/
def IPAStepWitness.new_minimal (next_transcript : FieldElement) : IPAStepWitness :=
  { public_inputs := []
    l_terms := []
    r_terms := []
    a_scalar := 0
    b_scalar := none
    new_app_state := none
    next_transcript_hash := next_transcript }

/-- The element list absorbed by `compute_transcript_hash`
(verifier_contract.rs lines 163-189): previous transcript, public inputs,
interleaved L/R coordinates over the zip of the two term lists, the final
scalar `a`, and `b` when present; every element decoded with
`bytes_to_fp(..).unwrap_or(Fp::ZERO)`. -/
def IPAStepWitness.transcriptInputs (w : IPAStepWitness)
    (prev_transcript : FieldElement) : List ℕ :=
  fpOrZero prev_transcript ::
    (w.public_inputs.map fpOrZero ++
     ((w.l_terms.zip w.r_terms).flatMap fun lr =>
       [fpOrZero lr.1.1, fpOrZero lr.1.2, fpOrZero lr.2.1, fpOrZero lr.2.2]) ++
     [fpOrZero w.a_scalar] ++
     (w.b_scalar.toList.map fpOrZero))

/-- `IPAStepWitness::compute_transcript_hash` (verifier_contract.rs lines
163-190): one `PoseidonHash::hash_many` over the absorbed element list. -/
def IPAStepWitness.compute_transcript_hash (h : ℕ → ℕ → ℕ) (w : IPAStepWitness)
    (prev_transcript : FieldElement) : ℕ :=
  hashMany h (w.transcriptInputs prev_transcript)

/-- `IPAStepWitness::verify` (verifier_contract.rs lines 193-197): compare
the recomputed digest with the claimed one, decoding the claimed bytes with
`bytes_to_fp(..).unwrap_or(Fp::ONE)`. -/
def IPAStepWitness.verify (h : ℕ → ℕ → ℕ) (w : IPAStepWitness)
    (prev_transcript : FieldElement) : Bool :=
  w.compute_transcript_hash h prev_transcript ==
    (bytes_to_fp w.next_transcript_hash).getD 1

/-- The Fiat-Shamir transcript builder (proof_generator.rs lines 35-51). -/
structure TranscriptBuilder where
  state : ℕ
  absorbed : List ℕ

/-- `TranscriptBuilder::new` (proof_generator.rs lines 45-51). -/
def TranscriptBuilder.new (initial_state : FieldElement) : TranscriptBuilder :=
  { state := fpOrZero initial_state, absorbed := [fpOrZero initial_state] }

/-- `TranscriptBuilder::new_empty` (proof_generator.rs lines 54-59). -/
def TranscriptBuilder.new_empty : TranscriptBuilder :=
  { state := 0, absorbed := [0] }

/-- `TranscriptBuilder::absorb` (proof_generator.rs lines 62-66): replace the
running state with `PoseidonHash::hash(state, element)` — the two-input
permutation hash, the parameter `h`. -/
def TranscriptBuilder.absorb (h : ℕ → ℕ → ℕ) (tb : TranscriptBuilder)
    (element : FieldElement) : TranscriptBuilder :=
  { state := h tb.state (fpOrZero element)
    absorbed := tb.absorbed ++ [fpOrZero element] }

/-- `TranscriptBuilder::absorb_many` (proof_generator.rs lines 75-79). -/
def TranscriptBuilder.absorb_many (h : ℕ → ℕ → ℕ) (tb : TranscriptBuilder)
    (elements : List FieldElement) : TranscriptBuilder :=
  elements.foldl (TranscriptBuilder.absorb h) tb

/-- `TranscriptBuilder::absorb_lr_terms` (proof_generator.rs lines 82-91):
for each zipped L/R pair absorb L.x, L.y, R.x, R.y in order. -/
def TranscriptBuilder.absorb_lr_terms (h : ℕ → ℕ → ℕ) :
    TranscriptBuilder → List (FieldElement × FieldElement) →
    List (FieldElement × FieldElement) → TranscriptBuilder
  | tb, l :: ls, r :: rs =>
      TranscriptBuilder.absorb_lr_terms h
        ((((tb.absorb h l.1).absorb h l.2).absorb h r.1).absorb h r.2) ls rs
  | tb, _, _ => tb

/-- `TranscriptBuilder::squeeze` (proof_generator.rs line 94). -/
def TranscriptBuilder.squeeze (tb : TranscriptBuilder) : ℕ := tb.state

/-- `TranscriptBuilder::state_bytes` (proof_generator.rs line 99). -/
def TranscriptBuilder.state_bytes (tb : TranscriptBuilder) : FieldElement :=
  fp_to_bytes tb.state

/-- Raw IPA proof components (proof_generator.rs lines 115-127). -/
structure IPAProofComponents where
  l_commitments : List (FieldElement × FieldElement)
  r_commitments : List (FieldElement × FieldElement)
  a : FieldElement
  b : Option FieldElement
deriving DecidableEq

/-- `IPAProofComponents::num_rounds` (proof_generator.rs line 156). -/
def IPAProofComponents.num_rounds (p : IPAProofComponents) : ℕ :=
  p.l_commitments.length

/-- `IPAProofComponents::validate` (proof_generator.rs lines 161-167): the
L/R length-equality check; the `LRLengthMismatch` error collapses to none. -/
def IPAProofComponents.validate (p : IPAProofComponents) : Option Unit :=
  if p.l_commitments.length ≠ p.r_commitments.length then none else some ()

/-- `ProofGenerator::generate_ipa_witness` (proof_generator.rs lines
195-231): validate, sequentially absorb public inputs, L/R terms and final
scalars into a transcript seeded with the current digest, and package the
witness with the squeezed state as claimed next digest. -/
def generate_ipa_witness (h : ℕ → ℕ → ℕ) (current_transcript : FieldElement)
    (public_inputs : List FieldElement) (proof : IPAProofComponents)
    (new_app_state : Option FieldElement) : Option IPAStepWitness :=
  match proof.validate with
  | none => none
  | some _ =>
      let t0 := TranscriptBuilder.new current_transcript
      let t1 := t0.absorb_many h public_inputs
      let t2 := TranscriptBuilder.absorb_lr_terms h t1
        proof.l_commitments proof.r_commitments
      let t3 := t2.absorb h proof.a
      let t4 := match proof.b with
        | some b => t3.absorb h b
        | none => t3
      some
        { public_inputs := public_inputs
          l_terms := proof.l_commitments
          r_terms := proof.r_commitments
          a_scalar := proof.a
          b_scalar := proof.b
          new_app_state := new_app_state
          next_transcript_hash := t4.state_bytes }

-- ============================================================================
-- Accumulator and verifier contract transitions
-- src/script/verifier_contract.rs lines 53-110, 219-394
-- ============================================================================

/-- The on-chain accumulator state (verifier_contract.rs lines 53-64); the
step counter is an unsigned 32-bit value, modelled mod 2^32. -/
structure IPAAccumulator where
  transcript_hash : FieldElement
  app_state_root : FieldElement
  step : ℕ
deriving DecidableEq

/-- `IPAAccumulator::new` (verifier_contract.rs lines 68-74). -/
def IPAAccumulator.new (app_state_root : FieldElement) : IPAAccumulator :=
  { transcript_hash := 0, app_state_root := app_state_root, step := 0 }

/-- The verifier contract, reduced to the fields `apply_transition` touches:
the operator key hash and the current accumulator (the fused constants and
their hash are copied verbatim by every transition). -/
structure VerifierContract where
  operator_pkh : ℕ
  current_state : IPAAccumulator
deriving DecidableEq

/-- `VerifierContract::apply_transition` (verifier_contract.rs lines
363-383): reject (the `InvalidTranscript` error, collapsed to none) unless
the witness verifies against the current transcript digest; on success build
the new accumulator with the claimed digest, the optionally updated app
state root, and the incremented step counter. -/
def VerifierContract.apply_transition (h : ℕ → ℕ → ℕ) (c : VerifierContract)
    (w : IPAStepWitness) : Option VerifierContract :=
  if IPAStepWitness.verify h w c.current_state.transcript_hash then
    some
      { operator_pkh := c.operator_pkh
        current_state :=
          { transcript_hash := w.next_transcript_hash
            app_state_root := w.new_app_state.getD c.current_state.app_state_root
            step := (c.current_state.step + 1) % 2 ^ 32 } }
  else none

-- ============================================================================
-- Witness serializer
-- src/script/proof_generator.rs lines 268-377
-- ============================================================================

/-- `WitnessSerializer::serialize` (proof_generator.rs lines 272-305):
public inputs, interleaved zipped L/R coordinate pairs, the final scalar,
the optional second scalar, the optional new app state, and the claimed
next digest, each as 32 bytes. -/
def WitnessSerializer.serialize (w : IPAStepWitness) : List ℕ :=
  w.public_inputs.flatMap toBytes32 ++
  ((w.l_terms.zip w.r_terms).flatMap fun lr =>
    toBytes32 lr.1.1 ++ toBytes32 lr.1.2 ++ toBytes32 lr.2.1 ++ toBytes32 lr.2.2) ++
  toBytes32 w.a_scalar ++
  (match w.b_scalar with
   | some b => toBytes32 b
   | none => []) ++
  (match w.new_app_state with
   | some s => toBytes32 s
   | none => []) ++
  toBytes32 w.next_transcript_hash

/-- Read one 32-byte field element from the front of the byte stream,
failing when fewer than 32 bytes remain (the `offset + 32 > bytes.len()`
guard of deserialize, phrased on the unconsumed suffix). -/
def readFE (bs : List ℕ) : Option (ℕ × List ℕ) :=
  if 32 ≤ bs.length then some (fromBytesLE (bs.take 32), bs.drop 32) else none

/-- Read `n` consecutive field elements (the public-input loop of
deserialize, proof_generator.rs lines 312-318). -/
def readFEs : List ℕ → ℕ → Option (List ℕ × List ℕ)
  | bs, 0 => some ([], bs)
  | bs, n + 1 =>
      match readFE bs with
      | none => none
      | some (x, rest) =>
          match readFEs rest n with
          | none => none
          | some (xs, rest') => some (x :: xs, rest')

/-- Read `n` rounds of L/R terms, 128 bytes per round with a single bound
check per round (proof_generator.rs lines 321-336). -/
def readLR : List ℕ → ℕ → Option (List (ℕ × ℕ) × List (ℕ × ℕ) × List ℕ)
  | bs, 0 => some ([], [], bs)
  | bs, n + 1 =>
      if 128 ≤ bs.length then
        let lx := fromBytesLE (bs.take 32)
        let ly := fromBytesLE ((bs.drop 32).take 32)
        let rx := fromBytesLE ((bs.drop 64).take 32)
        let ry := fromBytesLE ((bs.drop 96).take 32)
        match readLR (bs.drop 128) n with
        | none => none
        | some (ls, rs, rest) => some ((lx, ly) :: ls, (rx, ry) :: rs, rest)
      else none

/-- Read an optional 32-byte field controlled by a presence flag (the
`has_b` / `has_app_state` blocks of deserialize). -/
def readOptFE (bs : List ℕ) (flag : Bool) : Option (Option ℕ × List ℕ) :=
  if flag then
    match readFE bs with
    | none => none
    | some (x, rest) => some (some x, rest)
  else some (none, bs)

/-- `WitnessSerializer::deserialize` (proof_generator.rs lines 308-376):
read the layout back under the given shape parameters, returning none on
truncation (trailing bytes are ignored). -/
def WitnessSerializer.deserialize (bs : List ℕ) (num_public_inputs num_rounds : ℕ)
    (has_b has_app_state : Bool) : Option IPAStepWitness :=
  match readFEs bs num_public_inputs with
  | none => none
  | some (pis, bs1) =>
      match readLR bs1 num_rounds with
      | none => none
      | some (ls, rs, bs2) =>
          match readFE bs2 with
          | none => none
          | some (a, bs3) =>
              match readOptFE bs3 has_b with
              | none => none
              | some (b, bs4) =>
                  match readOptFE bs4 has_app_state with
                  | none => none
                  | some (app, bs5) =>
                      match readFE bs5 with
                      | none => none
                      | some (next, _) =>
                          some
                            { public_inputs := pis
                              l_terms := ls
                              r_terms := rs
                              a_scalar := a
                              b_scalar := b
                              new_app_state := app
                              next_transcript_hash := next }

/-- Every 32-byte field of the witness is in range, as the `[u8; 32]` arrays
of the Rust structure guarantee. -/
def IPAStepWitness.WF (w : IPAStepWitness) : Prop :=
  (∀ x ∈ w.public_inputs, x < 2 ^ 256) ∧
  (∀ lr ∈ w.l_terms, lr.1 < 2 ^ 256 ∧ lr.2 < 2 ^ 256) ∧
  (∀ lr ∈ w.r_terms, lr.1 < 2 ^ 256 ∧ lr.2 < 2 ^ 256) ∧
  w.a_scalar < 2 ^ 256 ∧
  (∀ b ∈ w.b_scalar, b < 2 ^ 256) ∧
  (∀ s ∈ w.new_app_state, s < 2 ^ 256) ∧
  w.next_transcript_hash < 2 ^ 256

instance (w : IPAStepWitness) : Decidable w.WF := by
  unfold IPAStepWitness.WF
  infer_instance

/-- The byte length the deserialization layout requires for the given shape
parameters. -/
def serializedLen (num_public_inputs num_rounds : ℕ) (has_b has_app_state : Bool) : ℕ :=
  32 * num_public_inputs + 128 * num_rounds + 32 +
    (if has_b then 32 else 0) + (if has_app_state then 32 else 0) + 32

-- ============================================================================
-- Stack code builder and the S-box fragment
-- src/script/field_script.rs lines 263-395
-- ============================================================================

/-- One emitted VM instruction.  The source emits raw opcode bytes; the
numeric-literal encoding of pick/roll operands (`push_number`, in the
opcodes module absent from src/) is abstracted into the operand, so a
program is a list of instructions rather than bytes. -/
inductive Instr where
  | dup
  | drop
  | swap
  | mul
  | mod
  | pick (n : ℕ)
  | roll (n : ℕ)
deriving DecidableEq

/-- The script builder (field_script.rs lines 263-271), holding the emitted
program. -/
structure OptimizedScriptBuilder where
  script : List Instr
deriving DecidableEq

/-- `OptimizedScriptBuilder::new`. -/
def OptimizedScriptBuilder.new : OptimizedScriptBuilder := ⟨[]⟩

/-- `OptimizedScriptBuilder::op`: append one instruction. -/
def OptimizedScriptBuilder.op (b : OptimizedScriptBuilder) (i : Instr) :
    OptimizedScriptBuilder :=
  ⟨b.script ++ [i]⟩

/-- `OptimizedScriptBuilder::dup`. -/
def OptimizedScriptBuilder.dup (b : OptimizedScriptBuilder) : OptimizedScriptBuilder :=
  b.op .dup

/-- `OptimizedScriptBuilder::drop`. -/
def OptimizedScriptBuilder.drop (b : OptimizedScriptBuilder) : OptimizedScriptBuilder :=
  b.op .drop

/-- `OptimizedScriptBuilder::swap`. -/
def OptimizedScriptBuilder.swap (b : OptimizedScriptBuilder) : OptimizedScriptBuilder :=
  b.op .swap

/-- `OptimizedScriptBuilder::mul`. -/
def OptimizedScriptBuilder.mul (b : OptimizedScriptBuilder) : OptimizedScriptBuilder :=
  b.op .mul

/-- `OptimizedScriptBuilder::modulo`. -/
def OptimizedScriptBuilder.modulo (b : OptimizedScriptBuilder) : OptimizedScriptBuilder :=
  b.op .mod

/-- `OptimizedScriptBuilder::pick` (numeric literal plus the fetch-by-depth
opcode). -/
def OptimizedScriptBuilder.pick (b : OptimizedScriptBuilder) (n : ℕ) :
    OptimizedScriptBuilder :=
  b.op (.pick n)

/-- `OptimizedScriptBuilder::roll` (numeric literal plus the rotate-to-top
opcode). -/
def OptimizedScriptBuilder.roll (b : OptimizedScriptBuilder) (n : ℕ) :
    OptimizedScriptBuilder :=
  b.op (.roll n)

/-- `OptimizedScriptBuilder::sbox_p_at` (field_script.rs lines 362-388):
two squarings, the final multiply, and cleanup of the squared
intermediate, fetching the modulus at depths `p_depth + 1`, `p_depth + 2`
and `p_depth + 1`. -/
def OptimizedScriptBuilder.sbox_p_at (b : OptimizedScriptBuilder) (p_depth : ℕ) :
    OptimizedScriptBuilder :=
  let b := b.dup
  let b := b.dup
  let b := b.mul
  let b := b.pick (p_depth + 1)
  let b := b.modulo
  let b := b.dup
  let b := b.dup
  let b := b.mul
  let b := b.pick (p_depth + 2)
  let b := b.modulo
  let b := b.roll 2
  let b := b.mul
  let b := b.pick (p_depth + 1)
  let b := b.modulo
  let b := b.swap
  b.drop

/-- Small-step semantics of one instruction on the main stack (top of stack
is the list head).  Arithmetic opcodes consume the top two entries; the
remainder opcode computes `second mod top`; fetch-by-depth and rotate fail
outside the stack. -/
def stepInstr : Instr → List ℕ → Option (List ℕ)
  | .dup, a :: s => some (a :: a :: s)
  | .drop, _ :: s => some s
  | .swap, a :: b :: s => some (b :: a :: s)
  | .mul, a :: b :: s => some (b * a :: s)
  | .mod, a :: b :: s => some (b % a :: s)
  | .pick n, s =>
      match s[n]? with
      | some v => some (v :: s)
      | none => none
  | .roll n, s =>
      match s[n]? with
      | some v => some (v :: s.eraseIdx n)
      | none => none
  | _, _ => none

/-- Run a program on a stack. -/
def execScript : List Instr → List ℕ → Option (List ℕ)
  | [], s => some s
  | i :: is, s =>
      match stepInstr i s with
      | some s' => execScript is s'
      | none => none

-- ============================================================================
-- Sequential-absorption digest and concrete evaluation values
-- ============================================================================

/-- The step digest obtained by sequential absorption exactly as
`ProofGenerator::generate_ipa_witness` drives `TranscriptBuilder`: seed with
the previous digest, absorb each public input, each zipped L/R coordinate
quadruple, the final scalar and the optional second scalar, then squeeze. -/
def sequentialTranscriptDigest (h : ℕ → ℕ → ℕ) (w : IPAStepWitness)
    (prev_transcript : FieldElement) : ℕ :=
  let t0 := TranscriptBuilder.new prev_transcript
  let t1 := t0.absorb_many h w.public_inputs
  let t2 := TranscriptBuilder.absorb_lr_terms h t1 w.l_terms w.r_terms
  let t3 := t2.absorb h w.a_scalar
  let t4 := match w.b_scalar with
    | some b => t3.absorb h b
    | none => t3
  t4.squeeze

/-- A concrete stand-in for the two-input permutation hash, used to evaluate
the transcript layer at concrete inputs; it maps into the field. -/
def hDemo : ℕ → ℕ → ℕ := fun a b => (a + b + 1) % pallasP

/-- Concrete proof components for evaluating the generator. -/
def proofDemo : IPAProofComponents :=
  { l_commitments := [(1, 2)], r_commitments := [(3, 4)], a := 6, b := some 7 }

/-- The witness the generator produces from `proofDemo`. -/
def wGenDemo : IPAStepWitness :=
  (generate_ipa_witness hDemo 0 [5] proofDemo none).getD (IPAStepWitness.new_minimal 0)

/-- A concrete contract at step zero. -/
def cDemo0 : VerifierContract := ⟨9, ⟨0, 42, 0⟩⟩

/-- First chained step witness: its claimed digest is `hDemo 0 0 = 1`. -/
def wDemo1 : IPAStepWitness := IPAStepWitness.new_minimal 1

/-- Second chained step witness: its claimed digest is `hDemo 1 0 = 2`. -/
def wDemo2 : IPAStepWitness := IPAStepWitness.new_minimal 2

/-- Third chained step witness: its claimed digest is `hDemo 2 0 = 3`. -/
def wDemo3 : IPAStepWitness := IPAStepWitness.new_minimal 3

/-- Contract state after the first chained step. -/
def cDemo1 : VerifierContract := ⟨9, ⟨1, 42, 1⟩⟩

/-- Contract state after the second chained step. -/
def cDemo2 : VerifierContract := ⟨9, ⟨2, 42, 2⟩⟩

/-- Contract state after the third chained step. -/
def cDemo3 : VerifierContract := ⟨9, ⟨3, 42, 3⟩⟩

/-- A concrete witness with one public input and one reduction round for
evaluating the serializer round-trip. -/
def wSerDemo : IPAStepWitness :=
  { public_inputs := [11]
    l_terms := [(1, 2)]
    r_terms := [(3, 4)]
    a_scalar := 5
    b_scalar := some 6
    new_app_state := none
    next_transcript_hash := 7 }

-- ============================================================================
-- THEOREMS
-- ============================================================================

theorem toBytesLE_length (k v : ℕ) : (toBytesLE k v).length = k := by
  induction k generalizing v with
  | zero => rfl
  | succ k ih => simp [toBytesLE, ih]

theorem fromBytesLE_toBytesLE (k v : ℕ) :
    fromBytesLE (toBytesLE k v) = v % 256 ^ k := by
  induction k generalizing v with
  | zero => simp [toBytesLE, fromBytesLE, Nat.mod_one]
  | succ k ih =>
      simp only [toBytesLE, fromBytesLE, ih]
      rw [pow_succ, mul_comm (256 ^ k) 256, Nat.mod_mul]

theorem toBytes32_length (v : ℕ) : (toBytes32 v).length = 32 :=
  toBytesLE_length 32 v

theorem fromBytesLE_toBytes32 (v : ℕ) (hv : v < 2 ^ 256) :
    fromBytesLE (toBytes32 v) = v := by
  have h : (256 : ℕ) ^ 32 = 2 ^ 256 := by norm_num
  rw [toBytes32, fromBytesLE_toBytesLE, h, Nat.mod_eq_of_lt hv]

theorem pallasP_pos : 0 < pallasP := by decide

theorem fpOrZero_lt (b : FieldElement) : fpOrZero b < pallasP := by
  unfold fpOrZero bytes_to_fp
  split
  · simpa using by assumption
  · simpa using pallasP_pos


set_option maxRecDepth 100000 in
/-- Sanity check of the embedding: when every partial round has zero c1 and
c2 there is nothing to fuse, and on a unit-row matrix the fused schedule
agrees with the textbook schedule exactly. -/
theorem fused_agrees_when_nothing_to_fuse :
    fusedPermutation
      (FusedPoseidonConstants.compute mdsDemo (fun r i =>
        if 4 ≤ r ∧ r < 60 then (if i = 0 then r + 7 else 0) else r * 3 + i + 1))
      ⟨5, 11, 23⟩ =
    textbookPermutation mdsDemo (fun r i =>
        if 4 ≤ r ∧ r < 60 then (if i = 0 then r + 7 else 0) else r * 3 + i + 1)
      ⟨5, 11, 23⟩ := by
  decide

set_option maxRecDepth 100000 in
/-- C1: the claim asserts that for every initial state the fused 64-round
schedule built from `FusedPoseidonConstants.compute` is bit-identical to the
textbook schedule with unfused constant triples and dense mixing, including
the absorption of the last partial round's c1/c2 into round 60.  The code
violates this: `compute` overwrites its pending c1/c2 accumulators each
round instead of accumulating them, and the final accumulator is never
folded into round 60's constants, so already on the all-zero state with a
unit-row mixing matrix (on which sparse and dense mixing coincide) and
constants `c1 = 1, c0 = c2 = 0` the two schedules produce different
outputs. -/
theorem fusion_equivalence_fails_on_compute :
    fusedPermutation (FusedPoseidonConstants.compute mdsDemo rcDemo) permState0 ≠
      textbookPermutation mdsDemo rcDemo permState0 := by
  decide

theorem zip_take_min {α β : Type} (l : List α) (r : List β) :
    (l.take (min l.length r.length)).zip (r.take (min l.length r.length)) = l.zip r := by
  induction l generalizing r with
  | nil => simp
  | cons a t ih =>
      cases r with
      | nil => simp
      | cons b s =>
          simp [List.length_cons, Nat.succ_min_succ, List.take_succ_cons, ih]

/-- C9: two witnesses that differ only in `new_app_state` and/or
`next_transcript_hash` receive the same digest from
`compute_transcript_hash` against any previous transcript — the absorbed
sequence never includes the new application state, so a verified transition
binds the transcript digest but not the app-state update it applies. -/
theorem transcript_hash_ignores_app_state (h : ℕ → ℕ → ℕ) (w : IPAStepWitness)
    (a : Option FieldElement) (n : FieldElement) (prev : FieldElement) :
    IPAStepWitness.compute_transcript_hash h
      { w with new_app_state := a, next_transcript_hash := n } prev =
      IPAStepWitness.compute_transcript_hash h w prev := rfl

/-- C10: both `compute_transcript_hash` and `WitnessSerializer::serialize`
iterate the zip of the two cross-term lists, so on witnesses with unequal
list lengths they return exactly the result for the witness with the longer
list truncated to the shorter length — extra pairs are silently ignored,
and the length-equality check lives only in `IPAProofComponents::validate`. -/
theorem lr_terms_silently_truncated (h : ℕ → ℕ → ℕ) (w : IPAStepWitness)
    (prev : FieldElement) :
    IPAStepWitness.compute_transcript_hash h
      { w with
          l_terms := w.l_terms.take (min w.l_terms.length w.r_terms.length),
          r_terms := w.r_terms.take (min w.l_terms.length w.r_terms.length) } prev =
      IPAStepWitness.compute_transcript_hash h w prev ∧
    WitnessSerializer.serialize
      { w with
          l_terms := w.l_terms.take (min w.l_terms.length w.r_terms.length),
          r_terms := w.r_terms.take (min w.l_terms.length w.r_terms.length) } =
      WitnessSerializer.serialize w ∧
    ∀ p : IPAProofComponents,
      p.validate.isSome ↔ p.l_commitments.length = p.r_commitments.length := by
  refine ⟨?_, ?_, ?_⟩
  · simp [IPAStepWitness.compute_transcript_hash, IPAStepWitness.transcriptInputs,
      zip_take_min]
  · simp [WitnessSerializer.serialize, zip_take_min]
  · intro p
    unfold IPAProofComponents.validate
    split
    · simpa using by assumption
    · simpa using by omega

/-- C7, counterexample: the two push encoders do not agree on every input —
on the single byte 0x01, `push_bytes` emits a length prefix while
`push_data` emits the small-integer opcode 0x51. -/
theorem push_encoders_differ_on_small_int : push_bytes [1] ≠ push_data [1] := by
  decide

/-- C7, amended: away from single-byte inputs with value 1..16 (where
`push_data` emits the small-integer opcode `0x50 + v` and `push_bytes` a
length prefix) the two encoders produce identical byte sequences, and every
non-empty input of at most 75 bytes outside that exception is encoded as a
single length byte followed by the data. -/
theorem push_encoders_agree_off_small_ints (data : List ℕ)
    (hs : isSmallIntPush data = false) :
    push_bytes data = push_data data ∧
    (data.length ≠ 0 → data.length ≤ 75 → push_bytes data = data.length :: data) := by
  have hni : ¬(data.length = 1 ∧ 1 ≤ data.head?.getD 0 ∧ data.head?.getD 0 ≤ 16) := by
    simpa [isSmallIntPush, List.headD_eq_head?] using hs
  constructor
  · by_cases h0 : data.length = 0
    · simp [push_bytes, push_data, h0, OP_0]
    · by_cases h75 : data.length ≤ 75
      · simp [push_bytes, push_data, h0, h75, hni]
      · by_cases h255 : data.length ≤ 255
        · simp [push_bytes, push_data, h0, h75, h255, hni, OP_PUSHDATA1]
        · by_cases h65535 : data.length ≤ 65535
          · simp [push_bytes, push_data, h0, h75, h255, h65535, hni, OP_PUSHDATA2]
          · simp [push_bytes, push_data, h0, h75, h255, h65535, hni, OP_PUSHDATA4]
  · intro h0 h75
    simp [push_bytes, h0, h75]

/-- C7, witness: the amended statement evaluated on the two-byte input
0x03 0x04. -/
theorem push_encoders_agree_off_small_ints_witness :
    push_bytes [3, 4] = push_data [3, 4] ∧
      (([3, 4] : List ℕ).length ≠ 0 → ([3, 4] : List ℕ).length ≤ 75 →
        push_bytes [3, 4] = ([3, 4] : List ℕ).length :: [3, 4]) :=
  push_encoders_agree_off_small_ints [3, 4] (by decide)

set_option maxRecDepth 100000 in
/-- C2: the claim says a witness scalar encoded as `p` or greater must be
rejected by transcript verification and never silently replaced by a
default.  `bytes_to_fp` does fail on such a value, but
`compute_transcript_hash` coerces the failure to `Fp::ZERO`, so a witness
whose `a_scalar` is the modulus itself hashes exactly like one with a zero
scalar and `verify` accepts it: with the stand-in permutation hash, the
witness with `a_scalar = p` and claimed digest `hDemo 0 0` verifies against
the zero transcript. -/
theorem noncanonical_scalar_accepted :
    bytes_to_fp (fp_to_bytes pallasP) = none ∧
    IPAStepWitness.verify hDemo
      { IPAStepWitness.new_minimal (fp_to_bytes 1) with a_scalar := pallasP } 0 = true ∧
    IPAStepWitness.compute_transcript_hash hDemo
      { IPAStepWitness.new_minimal 0 with a_scalar := pallasP } 0 =
      IPAStepWitness.compute_transcript_hash hDemo
        { IPAStepWitness.new_minimal 0 with a_scalar := 0 } 0 := by
  refine ⟨by decide, by decide, by decide⟩

theorem flatMap_toBytes32_length (l : List ℕ) :
    (l.flatMap toBytes32).length = 32 * l.length := by
  induction l with
  | nil => simp
  | cons a t ih =>
      simp only [List.flatMap_cons, List.length_append, ih, toBytes32_length,
        List.length_cons]
      ring

theorem fuseLoop_length (m rc : ℕ → ℕ → ℕ) (n r a b : ℕ) :
    (fuseLoop m rc n r a b).length = n := by
  induction n generalizing r a b with
  | zero => rfl
  | succ k ih => simp [fuseLoop, ih]

theorem triple_flatMap_length (l : List (ℕ × ℕ × ℕ)) :
    (l.flatMap fun t => [t.1, t.2.1, t.2.2]).length = 3 * l.length := by
  induction l with
  | nil => simp
  | cons a t ih =>
      simp only [List.flatMap_cons, List.length_append, ih, List.length_cons]
      simp
      ring

theorem compute_full_round_constants_length (m rc : ℕ → ℕ → ℕ) :
    (FusedPoseidonConstants.compute m rc).full_round_constants.length = 8 := by
  simp [FusedPoseidonConstants.compute]

theorem to_witness_bytes_eq_specFusedBlob (c : FusedPoseidonConstants) :
    c.to_witness_bytes = specFusedBlob c := by
  unfold FusedPoseidonConstants.to_witness_bytes specFusedBlob fusedBlobElements
  simp [List.flatMap_append, List.flatMap_cons, List.flatMap_assoc,
    List.range_succ, List.append_assoc]

theorem compute_blob_length (m rc : ℕ → ℕ → ℕ) :
    (FusedPoseidonConstants.compute m rc).to_witness_bytes.length = 2848 := by
  rw [to_witness_bytes_eq_specFusedBlob]
  unfold specFusedBlob
  rw [flatMap_toBytes32_length]
  unfold fusedBlobElements
  simp only [List.length_append, triple_flatMap_length,
    compute_full_round_constants_length, List.length_cons, List.length_nil]
  have hp : (FusedPoseidonConstants.compute m rc).partial_round_c0.length = 56 := by
    simp [FusedPoseidonConstants.compute, fuseLoop_length]
  rw [hp]

/-- C5, counterexample: the constants blob `to_witness_bytes` produces is
not 2,880 bytes — it has no leading modulus, so on any computed constant
set (here a concrete one) it is 2,848 bytes long. -/
theorem witness_blob_not_2880_bytes :
    (FusedPoseidonConstants.compute mdsDemo rcDemo).to_witness_bytes.length ≠ 2880 := by
  rw [compute_blob_length]
  decide

/-- C5, amended: `to_witness_bytes` produces the documented layout minus the
modulus — MDS matrix row-major (9 x 32 bytes), then full-round constants
round-major (8 x 3 x 32 bytes), then fused partial constants (56 x 32
bytes) — totalling 2,848 bytes, and `witness_hash` is the digest of exactly
that blob under the external hash function. -/
theorem to_witness_bytes_layout (m rc : ℕ → ℕ → ℕ) (sha : List ℕ → List ℕ) :
    (FusedPoseidonConstants.compute m rc).to_witness_bytes =
      specFusedBlob (FusedPoseidonConstants.compute m rc) ∧
    (FusedPoseidonConstants.compute m rc).to_witness_bytes.length = 2848 ∧
    (FusedPoseidonConstants.compute m rc).witness_hash sha =
      sha (FusedPoseidonConstants.compute m rc).to_witness_bytes :=
  ⟨to_witness_bytes_eq_specFusedBlob _, compute_blob_length m rc, rfl⟩

theorem absorb_many_state (h : ℕ → ℕ → ℕ) (es : List FieldElement) :
    ∀ tb : TranscriptBuilder,
      (tb.absorb_many h es).state =
        es.foldl (fun s e => h s (fpOrZero e)) tb.state := by
  induction es with
  | nil => intro tb; rfl
  | cons a t ih =>
      intro tb
      simpa [TranscriptBuilder.absorb_many, TranscriptBuilder.absorb] using
        ih (tb.absorb h a)

theorem absorb_lr_state (h : ℕ → ℕ → ℕ) (ls : List (FieldElement × FieldElement)) :
    ∀ (rs : List (FieldElement × FieldElement)) (tb : TranscriptBuilder),
      (TranscriptBuilder.absorb_lr_terms h tb ls rs).state =
        ((ls.zip rs).flatMap fun lr =>
          [fpOrZero lr.1.1, fpOrZero lr.1.2, fpOrZero lr.2.1, fpOrZero lr.2.2]).foldl
          h tb.state := by
  induction ls with
  | nil =>
      intro rs tb
      cases rs <;> rfl
  | cons l ls ih =>
      intro rs tb
      cases rs with
      | nil => rfl
      | cons r rs =>
          simpa [TranscriptBuilder.absorb_lr_terms, TranscriptBuilder.absorb] using
            ih rs ((((tb.absorb h l.1).absorb h l.2).absorb h r.1).absorb h r.2)

theorem hDemoLt : ∀ a b, hDemo a b < pallasP := fun _ _ => Nat.mod_lt _ pallasP_pos

theorem compute_eq_seq (h : ℕ → ℕ → ℕ) (w : IPAStepWitness) (prev : FieldElement) :
    IPAStepWitness.compute_transcript_hash h w prev =
      sequentialTranscriptDigest h w prev := by
  unfold IPAStepWitness.compute_transcript_hash IPAStepWitness.transcriptInputs
    hashMany sequentialTranscriptDigest
  cases hb : w.b_scalar with
  | none =>
      simp [hb, TranscriptBuilder.new, TranscriptBuilder.squeeze,
        TranscriptBuilder.absorb, absorb_many_state, absorb_lr_state,
        List.foldl_append, List.foldl_map]
  | some b =>
      simp [hb, TranscriptBuilder.new, TranscriptBuilder.squeeze,
        TranscriptBuilder.absorb, absorb_many_state, absorb_lr_state,
        List.foldl_append, List.foldl_map]

theorem seqDigest_lt (h : ℕ → ℕ → ℕ) (hh : ∀ a b, h a b < pallasP)
    (w : IPAStepWitness) (prev : FieldElement) :
    sequentialTranscriptDigest h w prev < pallasP := by
  unfold sequentialTranscriptDigest TranscriptBuilder.squeeze
  cases hb : w.b_scalar with
  | none => simp [hb, TranscriptBuilder.absorb]; exact hh _ _
  | some b => simp [hb, TranscriptBuilder.absorb]; exact hh _ _

theorem generate_next_eq (h : ℕ → ℕ → ℕ) (prev : FieldElement)
    (pis : List FieldElement) (proof : IPAProofComponents)
    (app : Option FieldElement) (w : IPAStepWitness)
    (hgen : generate_ipa_witness h prev pis proof app = some w) :
    w.next_transcript_hash = sequentialTranscriptDigest h w prev := by
  unfold generate_ipa_witness at hgen
  cases hval : proof.validate with
  | none => rw [hval] at hgen; exact absurd hgen (by simp)
  | some u =>
      rw [hval] at hgen
      simp only [Option.some.injEq] at hgen
      subst hgen
      rfl

/-- C3: `compute_transcript_hash` — one `hash_many` over the list of previous
digest, public inputs, interleaved L/R coordinates and final scalars —
computes exactly the digest obtained by sequentially absorbing the same
elements in the same order with the two-input hash, as `TranscriptBuilder`
does; consequently every witness `generate_ipa_witness` returns from a
valid proof component set passes `verify` against the same previous
transcript. -/
theorem transcript_hash_refines_sequential_absorption (h : ℕ → ℕ → ℕ)
    (hh : ∀ a b, h a b < pallasP) :
    (∀ (w : IPAStepWitness) (prev : FieldElement),
        IPAStepWitness.compute_transcript_hash h w prev =
          sequentialTranscriptDigest h w prev) ∧
    (∀ (prev : FieldElement) (pis : List FieldElement) (proof : IPAProofComponents)
        (app : Option FieldElement) (w : IPAStepWitness),
        generate_ipa_witness h prev pis proof app = some w →
        IPAStepWitness.verify h w prev = true) := by
  refine ⟨compute_eq_seq h, ?_⟩
  intro prev pis proof app w hgen
  have hn := generate_next_eq h prev pis proof app w hgen
  unfold IPAStepWitness.verify
  rw [compute_eq_seq h w prev, hn]
  unfold bytes_to_fp
  rw [if_pos (seqDigest_lt h hh w prev)]
  simp

set_option maxRecDepth 100000 in
/-- C3, witness: with the stand-in permutation hash, the generated witness
for one public input and one L/R round passes verification. -/
theorem transcript_refinement_witness :
    IPAStepWitness.verify hDemo wGenDemo 0 = true :=
  (transcript_hash_refines_sequential_absorption hDemo hDemoLt).2
    0 [5] proofDemo none wGenDemo (by decide)

/-- C4: `apply_transition` rejects exactly when the recomputed transcript
digest differs from the witness's claimed (canonical) `next_transcript_hash`
— rejection produces no successor state, leaving the accumulator unchanged;
on acceptance the new accumulator has the step incremented by one, the
claimed digest as transcript hash, and the app-state root updated only when
the witness supplies one; and chaining three accepted witnesses from step 0
yields step 3 with the third witness's claimed digest. -/
theorem apply_transition_spec (h : ℕ → ℕ → ℕ) (c : VerifierContract)
    (w : IPAStepWitness) (hnext : w.next_transcript_hash < pallasP)
    (hstep : c.current_state.step + 1 < 2 ^ 32) :
    (c.apply_transition h w = none ↔
      IPAStepWitness.compute_transcript_hash h w c.current_state.transcript_hash ≠
        w.next_transcript_hash) ∧
    (∀ c', c.apply_transition h w = some c' →
      c'.current_state.step = c.current_state.step + 1 ∧
      c'.current_state.transcript_hash = w.next_transcript_hash ∧
      c'.current_state.app_state_root =
        w.new_app_state.getD c.current_state.app_state_root ∧
      c'.operator_pkh = c.operator_pkh) ∧
    (∀ (w1 w2 w3 : IPAStepWitness) (c1 c2 c3 : VerifierContract),
      c.current_state.step = 0 →
      c.apply_transition h w1 = some c1 →
      c1.apply_transition h w2 = some c2 →
      c2.apply_transition h w3 = some c3 →
      c3.current_state.step = 3 ∧
      c3.current_state.transcript_hash = w3.next_transcript_hash) := by
  have hverify : IPAStepWitness.verify h w c.current_state.transcript_hash = true ↔
      IPAStepWitness.compute_transcript_hash h w c.current_state.transcript_hash =
        w.next_transcript_hash := by
    unfold IPAStepWitness.verify bytes_to_fp
    rw [if_pos hnext]
    simp
  have hsome : ∀ (cc cc' : VerifierContract) (ww : IPAStepWitness),
      cc.apply_transition h ww = some cc' →
      cc'.current_state.step = (cc.current_state.step + 1) % 2 ^ 32 ∧
      cc'.current_state.transcript_hash = ww.next_transcript_hash ∧
      cc'.current_state.app_state_root =
        ww.new_app_state.getD cc.current_state.app_state_root ∧
      cc'.operator_pkh = cc.operator_pkh := by
    intro cc cc' ww hcc
    unfold VerifierContract.apply_transition at hcc
    split at hcc
    · simp only [Option.some.injEq] at hcc
      subst hcc
      exact ⟨rfl, rfl, rfl, rfl⟩
    · exact absurd hcc (by simp)
  refine ⟨?_, ?_, ?_⟩
  · unfold VerifierContract.apply_transition
    by_cases hv : IPAStepWitness.verify h w c.current_state.transcript_hash = true
    · rw [if_pos hv]
      simp [hverify.mp hv]
    · rw [if_neg hv]
      have : ¬(IPAStepWitness.compute_transcript_hash h w
          c.current_state.transcript_hash = w.next_transcript_hash) :=
        fun he => hv (hverify.mpr he)
      simp [this]
  · intro c' hc'
    obtain ⟨e1, e2, e3, e4⟩ := hsome c c' w hc'
    refine ⟨?_, e2, e3, e4⟩
    rw [e1, Nat.mod_eq_of_lt hstep]
  · intro w1 w2 w3 c1 c2 c3 hstep0 h1 h2 h3
    obtain ⟨e1, -, -, -⟩ := hsome c c1 w1 h1
    obtain ⟨e2, -, -, -⟩ := hsome c1 c2 w2 h2
    obtain ⟨e3, t3, -, -⟩ := hsome c2 c3 w3 h3
    refine ⟨?_, t3⟩
    rw [e3, e2, e1, hstep0]
    norm_num

set_option maxRecDepth 100000 in
/-- C4, witness: the chaining clause evaluated on three concrete minimal
witnesses whose claimed digests chain under the stand-in hash, starting at
step 0. -/
theorem apply_transition_spec_witness :
    cDemo3.current_state.step = 3 ∧
      cDemo3.current_state.transcript_hash = wDemo3.next_transcript_hash :=
  (apply_transition_spec hDemo cDemo0 wDemo1 (by decide) (by decide)).2.2
    wDemo1 wDemo2 wDemo3 cDemo1 cDemo2 cDemo3 (by decide) (by decide) (by decide)
    (by decide)

theorem getElem?_append_marker (l r : List ℕ) (p : ℕ) :
    (l ++ p :: r)[l.length]? = some p := by
  induction l with
  | nil => simp
  | cons a t ih => simpa using ih

/-- C8: `sbox_p_at d` appends exactly the sequence DUP DUP MUL PICK(d+1)
MOD, DUP DUP MUL PICK(d+2) MOD, ROLL(2) MUL PICK(d+1) MOD, SWAP DROP — two
squarings and a final multiply fetching the modulus at depths d+1, d+2 and
d+1, then cleanup of the squared intermediate — and running that fragment
on a stack whose modulus sits d items below the input x replaces x by
`x^5 mod p`, leaving the rest of the stack unchanged. -/
theorem sbox_p_at_spec (b : OptimizedScriptBuilder) (d x p' : ℕ)
    (mid rest : List ℕ) (hd : d = mid.length + 1) :
    (b.sbox_p_at d).script = b.script ++
      [.dup, .dup, .mul, .pick (d + 1), .mod, .dup, .dup, .mul, .pick (d + 2),
       .mod, .roll 2, .mul, .pick (d + 1), .mod, .swap, .drop] ∧
    execScript (OptimizedScriptBuilder.new.sbox_p_at d).script
      (x :: (mid ++ p' :: rest)) =
      some (x ^ 5 % p' :: (mid ++ p' :: rest)) := by
  have hscript : ∀ bb : OptimizedScriptBuilder, (bb.sbox_p_at d).script =
      bb.script ++
      [.dup, .dup, .mul, .pick (d + 1), .mod, .dup, .dup, .mul, .pick (d + 2),
       .mod, .roll 2, .mul, .pick (d + 1), .mod, .swap, .drop] := by
    intro bb
    simp [OptimizedScriptBuilder.sbox_p_at, OptimizedScriptBuilder.dup,
      OptimizedScriptBuilder.drop, OptimizedScriptBuilder.swap,
      OptimizedScriptBuilder.mul, OptimizedScriptBuilder.modulo,
      OptimizedScriptBuilder.pick, OptimizedScriptBuilder.roll,
      OptimizedScriptBuilder.op]
  refine ⟨hscript b, ?_⟩
  subst hd
  rw [hscript]
  have g2 : ∀ a b : ℕ,
      (a :: b :: (mid ++ p' :: rest))[mid.length + 1 + 1]? = some p' := by
    intro a b
    have h := getElem?_append_marker (a :: b :: mid) rest p'
    have e : (a :: b :: mid).length = mid.length + 1 + 1 := by simp
    rw [e] at h
    simpa [List.cons_append] using h
  have g3 : ∀ a b c : ℕ,
      (a :: b :: c :: (mid ++ p' :: rest))[mid.length + 1 + 2]? = some p' := by
    intro a b c
    have h := getElem?_append_marker (a :: b :: c :: mid) rest p'
    have e : (a :: b :: c :: mid).length = mid.length + 1 + 2 := by simp
    rw [e] at h
    simpa [List.cons_append] using h
  have hval : ((x * x % p') * (x * x % p') % p') * x % p' = x ^ 5 % p' := by
    have h1 : (x * x % p') * (x * x % p') % p' = (x * x) * (x * x) % p' :=
      (Nat.mul_mod _ _ _).symm
    have h2 : ((x * x) * (x * x) % p') * x % p' = ((x * x) * (x * x)) * x % p' :=
      Nat.mod_mul_mod
    rw [h1, h2]
    ring_nf
  show execScript ((OptimizedScriptBuilder.new).script ++ _) _ = _
  simp only [OptimizedScriptBuilder.new, List.nil_append]
  simp only [execScript, stepInstr, g2, g3, List.getElem?_cons_succ,
    List.getElem?_cons_zero, List.eraseIdx, hval]

/-- C8, witness: the S-box fragment at depth 2 run on the stack
top-to-bottom 3, 9, 7 (modulus 7 two below the input) leaves
3^5 mod 7 = 5 on top. -/
theorem sbox_p_at_spec_witness :
    (OptimizedScriptBuilder.new.sbox_p_at 2).script =
      OptimizedScriptBuilder.new.script ++
      [.dup, .dup, .mul, .pick 3, .mod, .dup, .dup, .mul, .pick 4,
       .mod, .roll 2, .mul, .pick 3, .mod, .swap, .drop] ∧
    execScript (OptimizedScriptBuilder.new.sbox_p_at 2).script
      (3 :: ([9] ++ 7 :: [])) =
      some (3 ^ 5 % 7 :: ([9] ++ 7 :: [])) :=
  sbox_p_at_spec OptimizedScriptBuilder.new 2 3 7 [9] [] (by decide)

theorem readFE_encode (x : ℕ) (rest : List ℕ) (hx : x < 2 ^ 256) :
    readFE (toBytes32 x ++ rest) = some (x, rest) := by
  unfold readFE
  rw [if_pos (by simp [toBytes32_length])]
  rw [List.take_left' (toBytes32_length x), List.drop_left' (toBytes32_length x),
    fromBytesLE_toBytes32 x hx]

theorem readFEs_encode (xs : List ℕ) (rest : List ℕ) (hx : ∀ x ∈ xs, x < 2 ^ 256) :
    readFEs (xs.flatMap toBytes32 ++ rest) xs.length = some (xs, rest) := by
  induction xs with
  | nil => simp [readFEs]
  | cons a t ih =>
      have ha : a < 2 ^ 256 := hx a (by simp)
      have ht : ∀ x ∈ t, x < 2 ^ 256 := fun x hxm => hx x (by simp [hxm])
      simp only [List.flatMap_cons, List.append_assoc, List.length_cons]
      rw [readFEs, readFE_encode a _ ha]
      simp [ih ht]

theorem readLR_step (a b c d : ℕ) (tail : List ℕ) (n : ℕ)
    (ha : a < 2 ^ 256) (hb : b < 2 ^ 256) (hc : c < 2 ^ 256) (hd : d < 2 ^ 256) :
    readLR (toBytes32 a ++ (toBytes32 b ++ (toBytes32 c ++ (toBytes32 d ++ tail))))
      (n + 1) =
      match readLR tail n with
      | none => none
      | some (ls, rs, rest) => some ((a, b) :: ls, (c, d) :: rs, rest) := by
  have d32 : (toBytes32 a ++ (toBytes32 b ++ (toBytes32 c ++ (toBytes32 d ++ tail)))).drop 32 =
      toBytes32 b ++ (toBytes32 c ++ (toBytes32 d ++ tail)) :=
    List.drop_left' (toBytes32_length a)
  have d64 : (toBytes32 a ++ (toBytes32 b ++ (toBytes32 c ++ (toBytes32 d ++ tail)))).drop 64 =
      toBytes32 c ++ (toBytes32 d ++ tail) := by
    rw [show (64 : ℕ) = 32 + 32 from rfl, ← List.drop_drop, d32]
    exact List.drop_left' (toBytes32_length b)
  have d96 : (toBytes32 a ++ (toBytes32 b ++ (toBytes32 c ++ (toBytes32 d ++ tail)))).drop 96 =
      toBytes32 d ++ tail := by
    rw [show (96 : ℕ) = 64 + 32 from rfl, ← List.drop_drop, d64]
    exact List.drop_left' (toBytes32_length c)
  have d128 : (toBytes32 a ++ (toBytes32 b ++ (toBytes32 c ++ (toBytes32 d ++ tail)))).drop 128 =
      tail := by
    rw [show (128 : ℕ) = 96 + 32 from rfl, ← List.drop_drop, d96]
    exact List.drop_left' (toBytes32_length d)
  have t1 : (toBytes32 a ++ (toBytes32 b ++ (toBytes32 c ++ (toBytes32 d ++ tail)))).take 32 =
      toBytes32 a := List.take_left' (toBytes32_length a)
  have t2 : ((toBytes32 a ++ (toBytes32 b ++ (toBytes32 c ++ (toBytes32 d ++ tail)))).drop 32).take 32 =
      toBytes32 b := by
    rw [d32]; exact List.take_left' (toBytes32_length b)
  have t3 : ((toBytes32 a ++ (toBytes32 b ++ (toBytes32 c ++ (toBytes32 d ++ tail)))).drop 64).take 32 =
      toBytes32 c := by
    rw [d64]; exact List.take_left' (toBytes32_length c)
  have t4 : ((toBytes32 a ++ (toBytes32 b ++ (toBytes32 c ++ (toBytes32 d ++ tail)))).drop 96).take 32 =
      toBytes32 d := by
    rw [d96]; exact List.take_left' (toBytes32_length d)
  rw [readLR]
  rw [if_pos (by simp only [List.length_append, toBytes32_length]; omega)]
  simp only [t1, t2, t3, t4, d128, fromBytesLE_toBytes32 a ha,
    fromBytesLE_toBytes32 b hb, fromBytesLE_toBytes32 c hc,
    fromBytesLE_toBytes32 d hd]

theorem readLR_encode (ls : List (ℕ × ℕ)) :
    ∀ (rs : List (ℕ × ℕ)) (rest : List ℕ),
      ls.length = rs.length →
      (∀ p ∈ ls, p.1 < 2 ^ 256 ∧ p.2 < 2 ^ 256) →
      (∀ p ∈ rs, p.1 < 2 ^ 256 ∧ p.2 < 2 ^ 256) →
      readLR (((ls.zip rs).flatMap fun lr =>
        toBytes32 lr.1.1 ++ (toBytes32 lr.1.2 ++ (toBytes32 lr.2.1 ++
          toBytes32 lr.2.2))) ++ rest) ls.length = some (ls, rs, rest) := by
  induction ls with
  | nil =>
      intro rs rest hlen _ _
      cases rs with
      | nil => simp [readLR]
      | cons r rs' => simp at hlen
  | cons l ls' ih =>
      intro rs rest hlen hl hr
      cases rs with
      | nil => simp at hlen
      | cons r rs' =>
          obtain ⟨lx, ly⟩ := l
          obtain ⟨rx, ry⟩ := r
          have hlen' : ls'.length = rs'.length := by simpa using hlen
          have hl' : ∀ p ∈ ls', p.1 < 2 ^ 256 ∧ p.2 < 2 ^ 256 :=
            fun p hp => hl p (by simp [hp])
          have hr' : ∀ p ∈ rs', p.1 < 2 ^ 256 ∧ p.2 < 2 ^ 256 :=
            fun p hp => hr p (by simp [hp])
          have hlx : lx < 2 ^ 256 := (hl (lx, ly) (by simp)).1
          have hly : ly < 2 ^ 256 := (hl (lx, ly) (by simp)).2
          have hrx : rx < 2 ^ 256 := (hr (rx, ry) (by simp)).1
          have hry : ry < 2 ^ 256 := (hr (rx, ry) (by simp)).2
          simp only [List.zip_cons_cons, List.flatMap_cons, List.append_assoc,
            List.length_cons]
          rw [readLR_step lx ly rx ry _ ls'.length hlx hly hrx hry]
          rw [ih rs' rest hlen' hl' hr']

theorem readOptFE_encode_some (x : ℕ) (rest : List ℕ) (hx : x < 2 ^ 256) :
    readOptFE (toBytes32 x ++ rest) true = some (some x, rest) := by
  unfold readOptFE
  rw [if_pos rfl, readFE_encode x rest hx]

theorem readOptFE_encode_none (bs : List ℕ) :
    readOptFE bs false = some (none, bs) := by
  unfold readOptFE
  rw [if_neg (by simp)]

theorem readFE_encode_exact (x : ℕ) (hx : x < 2 ^ 256) :
    readFE (toBytes32 x) = some (x, []) := by
  have h := readFE_encode x [] hx
  simpa using h

theorem deserialize_serialize (w : IPAStepWitness) (hwf : w.WF)
    (hlen : w.l_terms.length = w.r_terms.length) :
    WitnessSerializer.deserialize (WitnessSerializer.serialize w)
      w.public_inputs.length w.l_terms.length w.b_scalar.isSome
      w.new_app_state.isSome = some w := by
  obtain ⟨pis, ls, rs, a, bP, appP, next⟩ := w
  obtain ⟨h1, h2, h3, h4, h5, h6, h7⟩ := hwf
  simp only [IPAStepWitness.WF] at *
  have hlen' : ls.length = rs.length := hlen
  cases bP with
  | none =>
      cases appP with
      | none =>
          simp only [WitnessSerializer.serialize, WitnessSerializer.deserialize,
            List.append_assoc, Option.isSome_none, Option.isSome_some]
          simp only [readFEs_encode pis _ h1, List.nil_append,
            readLR_encode ls rs _ hlen' h2 h3,
            readFE_encode a _ h4, readOptFE_encode_none,
            readFE_encode_exact next h7]
      | some app =>
          have happ : app < 2 ^ 256 := h6 app (by simp)
          simp only [WitnessSerializer.serialize, WitnessSerializer.deserialize,
            List.append_assoc, Option.isSome_none, Option.isSome_some]
          simp only [readFEs_encode pis _ h1, List.nil_append,
            readLR_encode ls rs _ hlen' h2 h3,
            readFE_encode a _ h4, readOptFE_encode_none,
            readOptFE_encode_some app _ happ,
            readFE_encode_exact next h7]
  | some b =>
      have hb : b < 2 ^ 256 := h5 b (by simp)
      cases appP with
      | none =>
          simp only [WitnessSerializer.serialize, WitnessSerializer.deserialize,
            List.append_assoc, Option.isSome_none, Option.isSome_some]
          simp only [readFEs_encode pis _ h1, List.nil_append,
            readLR_encode ls rs _ hlen' h2 h3,
            readFE_encode a _ h4, readOptFE_encode_none,
            readOptFE_encode_some b _ hb,
            readFE_encode_exact next h7]
      | some app =>
          have happ : app < 2 ^ 256 := h6 app (by simp)
          simp only [WitnessSerializer.serialize, WitnessSerializer.deserialize,
            List.append_assoc, Option.isSome_none, Option.isSome_some]
          simp only [readFEs_encode pis _ h1, List.nil_append,
            readLR_encode ls rs _ hlen' h2 h3,
            readFE_encode a _ h4,
            readOptFE_encode_some b _ hb,
            readOptFE_encode_some app _ happ,
            readFE_encode_exact next h7]

theorem readFE_some_len {bs : List ℕ} {x : ℕ} {rest : List ℕ}
    (h : readFE bs = some (x, rest)) : bs.length = 32 + rest.length := by
  unfold readFE at h
  split at h
  · rename_i hge
    simp only [Option.some.injEq, Prod.mk.injEq] at h
    obtain ⟨-, h2⟩ := h
    rw [← h2, List.length_drop]
    omega
  · exact absurd h (by simp)

theorem readFEs_some_len :
    ∀ {n : ℕ} {bs : List ℕ} {xs : List ℕ} {rest : List ℕ},
      readFEs bs n = some (xs, rest) → bs.length = 32 * n + rest.length := by
  intro n
  induction n with
  | zero =>
      intro bs xs rest h
      unfold readFEs at h
      simp only [Option.some.injEq, Prod.mk.injEq] at h
      obtain ⟨-, h2⟩ := h
      rw [← h2]
      omega
  | succ k ih =>
      intro bs xs rest h
      rw [readFEs] at h
      split at h
      · exact absurd h (by simp)
      · rename_i x0 rest0 hf
        split at h
        · exact absurd h (by simp)
        · rename_i xs2 rest2 hr
          simp only [Option.some.injEq, Prod.mk.injEq] at h
          obtain ⟨-, h2⟩ := h
          have e1 := readFE_some_len hf
          have e2 := ih hr
          rw [← h2]
          omega

theorem readLR_some_len :
    ∀ {n : ℕ} {bs : List ℕ} {ls rs : List (ℕ × ℕ)} {rest : List ℕ},
      readLR bs n = some (ls, rs, rest) → bs.length = 128 * n + rest.length := by
  intro n
  induction n with
  | zero =>
      intro bs ls rs rest h
      unfold readLR at h
      simp only [Option.some.injEq, Prod.mk.injEq] at h
      obtain ⟨-, -, h3⟩ := h
      rw [← h3]
      omega
  | succ k ih =>
      intro bs ls rs rest h
      rw [readLR] at h
      split at h
      · rename_i hge
        split at h
        · exact absurd h (by simp)
        · rename_i ls2 rs2 rest2 hr
          simp only [Option.some.injEq, Prod.mk.injEq] at h
          obtain ⟨-, -, h3⟩ := h
          have e2 := ih hr
          rw [List.length_drop] at e2
          rw [← h3]
          omega
      · exact absurd h (by simp)

theorem readOptFE_some_len {bs : List ℕ} {flag : Bool} {o : Option ℕ}
    {rest : List ℕ} (h : readOptFE bs flag = some (o, rest)) :
    bs.length = (if flag then 32 else 0) + rest.length := by
  cases flag with
  | false =>
      unfold readOptFE at h
      rw [if_neg (by simp)] at h
      simp only [Option.some.injEq, Prod.mk.injEq] at h
      obtain ⟨-, h2⟩ := h
      rw [← h2]
      simp
  | true =>
      unfold readOptFE at h
      rw [if_pos rfl] at h
      cases hf : readFE bs with
      | none => rw [hf] at h; exact absurd h (by simp)
      | some pr =>
          obtain ⟨x0, rest0⟩ := pr
          rw [hf] at h
          simp only [Option.some.injEq, Prod.mk.injEq] at h
          obtain ⟨-, h2⟩ := h
          have e1 := readFE_some_len hf
          rw [← h2]
          simpa using e1

theorem deserialize_some_len {bs : List ℕ} {N R : ℕ} {hb ha : Bool}
    {w : IPAStepWitness}
    (h : WitnessSerializer.deserialize bs N R hb ha = some w) :
    serializedLen N R hb ha ≤ bs.length := by
  unfold WitnessSerializer.deserialize at h
  split at h
  · exact absurd h (by simp)
  · rename_i pis bs1 e1
    split at h
    · exact absurd h (by simp)
    · rename_i ls rs bs2 e2
      split at h
      · exact absurd h (by simp)
      · rename_i a bs3 e3
        split at h
        · exact absurd h (by simp)
        · rename_i b bs4 e4
          split at h
          · exact absurd h (by simp)
          · rename_i app bs5 e5
            split at h
            · exact absurd h (by simp)
            · rename_i next rest6 e6
              have l1 := readFEs_some_len e1
              have l2 := readLR_some_len e2
              have l3 := readFE_some_len e3
              have l4 := readOptFE_some_len e4
              have l5 := readOptFE_some_len e5
              have l6 := readFE_some_len e6
              unfold serializedLen
              cases hb <;> cases ha <;> simp_all <;> omega

theorem deserialize_short {bs : List ℕ} {N R : ℕ} {hb ha : Bool}
    (h : bs.length < serializedLen N R hb ha) :
    WitnessSerializer.deserialize bs N R hb ha = none := by
  cases hd : WitnessSerializer.deserialize bs N R hb ha with
  | none => rfl
  | some w => exact absurd (deserialize_some_len hd) (by omega)

/-- C6: serializing a witness whose N public inputs and R-round cross-term
lists match the shape flags and deserializing with those parameters returns
the witness unchanged, and `deserialize` returns none — without panicking —
on every byte string (in particular every strict prefix of the serialized
bytes) shorter than the layout requires. -/
theorem witness_serializer_round_trip (w : IPAStepWitness) (hwf : w.WF)
    (hlen : w.l_terms.length = w.r_terms.length) :
    WitnessSerializer.deserialize (WitnessSerializer.serialize w)
      w.public_inputs.length w.l_terms.length w.b_scalar.isSome
      w.new_app_state.isSome = some w ∧
    ∀ bs : List ℕ,
      bs.length < serializedLen w.public_inputs.length w.l_terms.length
        w.b_scalar.isSome w.new_app_state.isSome →
      WitnessSerializer.deserialize bs w.public_inputs.length w.l_terms.length
        w.b_scalar.isSome w.new_app_state.isSome = none :=
  ⟨deserialize_serialize w hwf hlen, fun _ hbs => deserialize_short hbs⟩

set_option maxRecDepth 1000000 in
/-- C6, witness: the round trip evaluated on a concrete witness with one
public input, one reduction round and a second scalar present, and the
truncation behaviour on a 100-byte input, shorter than the 256 bytes its
layout requires. -/
theorem witness_serializer_round_trip_witness :
    WitnessSerializer.deserialize (WitnessSerializer.serialize wSerDemo)
      wSerDemo.public_inputs.length wSerDemo.l_terms.length
      wSerDemo.b_scalar.isSome wSerDemo.new_app_state.isSome = some wSerDemo ∧
    WitnessSerializer.deserialize (List.replicate 100 0)
      wSerDemo.public_inputs.length wSerDemo.l_terms.length
      wSerDemo.b_scalar.isSome wSerDemo.new_app_state.isSome = none :=
  ⟨(witness_serializer_round_trip wSerDemo (by decide) (by decide)).1,
   (witness_serializer_round_trip wSerDemo (by decide) (by decide)).2
     (List.replicate 100 0) (by decide)⟩
